import Mathlib

/-!
Verification development for the Jdrasil native layer: the incremental
pseudo-Boolean (cardinality) encoder wrapper (`src/lib/pblib/pseudo_PBLib.cpp`),
the lingeling DIMACS driver (`lglmain.c`), the IPASIR bridges, and the two
Glucose JNI wrappers.

The PBLib encoder proper (`pb2cnf.h`, `IncPBConstraint`, `AuxVarManager`,
`VectorClauseDatabase`) is a vendored library whose sources are not part of
this repository; definitions for those components are modelled from the
specification and say so in their doc comments.  Everything else is a direct
shallow embedding of the C/C++ sources.
-/

/-! ## Clause semantics

Clauses are lists of nonzero signed integers; the magnitude names a variable,
the sign the polarity (spec section 3, and the DIMACS exchange format).
-/

/-- Truth value of a signed literal under an assignment of the variables. -/
def litVal (σ : Nat → Bool) (l : Int) : Bool :=
  if 0 < l then σ l.natAbs else ! σ l.natAbs

/-- A clause is satisfied when one of its literals is true. -/
def evalClause (σ : Nat → Bool) (c : List Int) : Bool :=
  c.any (litVal σ)

/-- An assignment satisfies a clause list when it satisfies every clause. -/
def satLog (σ : Nat → Bool) (L : List (List Int)) : Prop :=
  ∀ c ∈ L, evalClause σ c = true

/-- Satisfiability of a clause list relative to a fixed assignment `α` of the
original variables (those below `m`): some total assignment agreeing with `α`
on the original variables satisfies the list.  Auxiliary encoder variables
live at indices `≥ m` and may be chosen freely. -/
def SatFor (m : Nat) (L : List (List Int)) (α : Nat → Bool) : Prop :=
  ∃ σ : Nat → Bool, (∀ v, v < m → σ v = α v) ∧ satLog σ L

/-- Number of literals of `ls` that are true under `σ`. -/
def cntTrue (σ : Nat → Bool) (ls : List Int) : Nat :=
  ls.countP (fun l => litVal σ l)

/-! ## Modelled PBLib encoder

`pseudo_PBLib.cpp` drives PBLib's incremental encoder.  PBLib itself is not in
the repository, so the encoder is modelled from the specification
(sections 4.2 to 4.4 and 7): a counting network is built once over fresh
auxiliary variables, a bound `k` is enforced by a unit clause against the
network output, tightening appends only the new bound clause, and the two
degenerate bounds are absorbed into an empty delta or an empty clause. -/

/-- Auxiliary network variable: `sLit m n i j` (for `i j < n`) is the output
wire asserting that at least `j + 1` of the first `i + 1` constraint literals
are true.  Allocated from the fresh-variable cursor `m` (spec section 4.2). -/
def sLit (m n i j : Nat) : Int :=
  ((m + i * n + j : Nat) : Int)

/-- Modelled from the spec: variables handed out by `k` successive `alloc()`
calls of an `AuxVarManager` whose cursor starts at `m` (spec section 4.2:
returns the cursor, increments, never recycles). -/
def auxAlloc (m k : Nat) : List Nat :=
  (List.range k).map (fun i => m + i)

/-- Modelled from the spec: the structural clauses of the counting network for
the literal list `lits`, built once by the initial encode (spec section 4.4).
For each input position `i` the clauses propagate counts:
`lᵢ → s i 0`, `s (i-1) j → s i j`, and `s (i-1) j ∧ lᵢ → s i (j+1)`. -/
def structClauses (m : Nat) (lits : List Int) : List (List Int) :=
  let n := lits.length
  (List.range n).flatMap (fun i =>
    [[-(lits.getD i 0), sLit m n i 0]] ++
    (if i = 0 then [] else
      ((List.range n).map (fun j => [-(sLit m n (i - 1) j), sLit m n i j])) ++
      ((List.range (n - 1)).map
        (fun j => [-(sLit m n (i - 1) j), -(lits.getD i 0), sLit m n i (j + 1)]))))

/-- Modelled from the spec: the clause enforcing bound `k` against the built
network: the output wire for "at least `k + 1` of all `n`" is forced false. -/
def unitClause (m n k : Nat) : List Int :=
  [-(sLit m n (n - 1) k)]

/-- Error taxonomy of the constraint model (spec section 7). -/
inductive PBError where
  | InvalidConstraint
  | NonMonotonicBound

/-- A weighted pseudo-Boolean constraint as handed to `IncPBConstraint`:
(literal, weight) pairs and a bound. -/
structure PBConstraintW where
  wlits : List (Int × Int)
  bound : Int

/-- Modelled from the spec: constraint construction
(`IncPBConstraint(literals, relation, bound)` is part of the vendored PBLib);
it fails with `InvalidConstraint` on an empty literal set or a zero weight and
retains nothing in that case (spec sections 4.3 and 7). -/
def construct (wl : List (Int × Int)) (k : Int) : Except PBError PBConstraintW :=
  if wl.isEmpty || wl.any (fun p => p.2 == 0) then
    .error .InvalidConstraint
  else
    .ok ⟨wl, k⟩

/-- The encoder-facing state of one incremental constraint: its literals, the
current bound, and whether the counting network has been built yet
(the spec's `EncodingState`, section 3). -/
structure IncConstraint where
  lits : List Int
  bound : Int
  built : Bool

/-- The per-handle state of `pseudo_PBLib.cpp` (`class myDatas`): a clause
database shared by all encode calls on the handle, and the current
incremental constraint. -/
structure MyDatas where
  formula : List (List Int)
  constraint : IncConstraint

/-- `Java_pseudo_PBLib_init`: a fresh handle with an empty clause database. -/
def pblibInit : MyDatas :=
  ⟨[], ⟨[], 0, false⟩⟩

/-- Modelled from the spec: `encodeIncInital` (PBLib) for an AtMost (`LEQ`)
constraint.  Degenerate bounds are absorbed: `k < 0` appends the empty clause,
`k ≥ n` appends nothing; otherwise the network plus the bound clause is
appended and `n * n` auxiliary variables are allocated from cursor `m`
(spec sections 4.4 and 7).  Returns the updated constraint state, the grown
clause database, and the variables allocated by this call. -/
def encodeIncInital (c : IncConstraint) (f : List (List Int)) (m : Nat) :
    IncConstraint × List (List Int) × List Nat :=
  if c.bound < 0 then
    (⟨c.lits, c.bound, false⟩, f ++ [[]], [])
  else if (c.lits.length : Int) ≤ c.bound then
    (⟨c.lits, c.bound, false⟩, f, [])
  else
    (⟨c.lits, c.bound, true⟩,
      f ++ structClauses m c.lits ++ [unitClause m c.lits.length c.bound.toNat],
      auxAlloc m (c.lits.length * c.lits.length))

/-- Modelled from the spec: `encodeNewLeq` (PBLib), the tighten operation of
an AtMost constraint.  It fails with `NonMonotonicBound` unless the new bound
strictly decreases (spec section 4.3); degenerate bounds are absorbed as in
the initial encode; otherwise only the new bound clause is appended against
the existing network, which is built first if the initial encode was
degenerate (spec section 4.4). -/
def encodeNewLeq (k : Int) (m : Nat) (c : IncConstraint) (f : List (List Int)) :
    Except PBError (IncConstraint × List (List Int) × List Nat) :=
  if c.bound ≤ k then
    .error .NonMonotonicBound
  else if k < 0 then
    .ok (⟨c.lits, k, c.built⟩, f ++ [[]], [])
  else if (c.lits.length : Int) ≤ k then
    .ok (⟨c.lits, k, c.built⟩, f, [])
  else if c.built then
    .ok (⟨c.lits, k, true⟩, f ++ [unitClause m c.lits.length k.toNat], [])
  else
    .ok (⟨c.lits, k, true⟩,
      f ++ structClauses m c.lits ++ [unitClause m c.lits.length k.toNat],
      auxAlloc m (c.lits.length * c.lits.length))

/-- Modelled from the spec: `encodeNewGeq` (PBLib), the tighten operation of
an AtLeast constraint; symmetric to `encodeNewLeq` (strict increase required,
spec section 4.3).  At least `k` of the literals true is encoded as at most
`n - k` of the negated literals true over the dual network. -/
def encodeNewGeq (k : Int) (m : Nat) (c : IncConstraint) (f : List (List Int)) :
    Except PBError (IncConstraint × List (List Int) × List Nat) :=
  if k ≤ c.bound then
    .error .NonMonotonicBound
  else if k ≤ 0 then
    .ok (⟨c.lits, k, c.built⟩, f, [])
  else if (c.lits.length : Int) < k then
    .ok (⟨c.lits, k, c.built⟩, f ++ [[]], [])
  else if c.built then
    .ok (⟨c.lits, k, true⟩,
      f ++ [unitClause m c.lits.length ((c.lits.length : Int) - k).toNat], [])
  else
    .ok (⟨c.lits, k, true⟩,
      f ++ structClauses m (c.lits.map (fun l => -l)) ++
        [unitClause m c.lits.length ((c.lits.length : Int) - k).toNat],
      auxAlloc m (c.lits.length * c.lits.length))

/-- Result of one JNI encode call: the updated handle state, the clause list
returned to Java (`cpp2java`), and the auxiliary variables the call's
`AuxVarManager` handed out. -/
structure CallResult where
  datas : MyDatas
  out : List (List Int)
  allocated : List Nat

/-- `Java_pseudo_PBLib_initIterAtMostK`: builds weight-1 literals from the
array, constructs an `LEQ` constraint with bound `k`, stores it in the handle,
runs the initial encode with a fresh allocator starting at `m`, and returns
the whole stored formula. -/
def initIterAtMostK (body : List Int) (k : Int) (m : Nat) (d : MyDatas) :
    Except PBError CallResult :=
  match construct (body.map (fun l => (l, 1))) k with
  | .error e => .error e
  | .ok _ =>
    let c0 : IncConstraint := ⟨body, k, false⟩
    let r := encodeIncInital c0 d.formula m
    .ok ⟨⟨r.2.1, r.1⟩, r.2.1, r.2.2⟩

/-- `Java_pseudo_PBLib_citerAtMostK`: records the clause count `oldc`, runs
the tighten encode with a fresh allocator starting at `m`, and returns only
the clauses at indices `oldc` and beyond (the delta). -/
def citerAtMostK (k : Int) (m : Nat) (d : MyDatas) : Except PBError CallResult :=
  let oldc := d.formula.length
  match encodeNewLeq k m d.constraint d.formula with
  | .error e => .error e
  | .ok r => .ok ⟨⟨r.2.1, r.1⟩, (r.2.1).drop oldc, r.2.2⟩

/-- `Java_pseudo_PBLib_citerAtLeastK`: the AtLeast counterpart of
`citerAtMostK`, with the same mark-and-slice delta extraction. -/
def citerAtLeastK (k : Int) (m : Nat) (d : MyDatas) : Except PBError CallResult :=
  let oldc := d.formula.length
  match encodeNewGeq k m d.constraint d.formula with
  | .error e => .error e
  | .ok r => .ok ⟨⟨r.2.1, r.1⟩, (r.2.1).drop oldc, r.2.2⟩

/-- Modelled from the spec: the tighten operation as a state transformer where
failure leaves everything in place; the constraint model updates the stored
bound only after the encoder call succeeds (spec section 4.3). -/
def tightenStep (k : Int) (m : Nat) (d : MyDatas) :
    MyDatas × List (List Int) × Option PBError :=
  match citerAtMostK k m d with
  | .error e => (d, [], some e)
  | .ok r => (r.datas, r.out, none)

/-- Runs a sequence of AtMost tighten calls, stopping at the first error. -/
def runTightenList (bs : List Int) (m : Nat) (d : MyDatas) : Except PBError MyDatas :=
  match bs with
  | [] => .ok d
  | b :: rest =>
    match citerAtMostK b m d with
    | .error e => .error e
    | .ok r => runTightenList rest m r.datas

/-- The canonical extension of an assignment `α` of the original variables to
the network variables: wire `s i j` is set exactly when at least `j + 1` of
the first `i + 1` literals are true under `α`. -/
def canon (m : Nat) (lits : List Int) (α : Nat → Bool) (v : Nat) : Bool :=
  let n := lits.length
  if v < m then α v
  else if v < m + n * n then
    decide ((v - m) % n + 1 ≤ cntTrue α (lits.take ((v - m) / n + 1)))
  else false

/-- Shape invariant of the clause database of one incremental AtMost
constraint: every clause is a structural network clause, a bound clause for
some bound at least the current one, or (once the bound went negative) the
empty clause; for a nontrivial current bound the network and its bound clause
are present; for a negative bound the empty clause is present. -/
structure ShapeInv (m : Nat) (lits : List Int) (b : Int) (L : List (List Int)) : Prop where
  mem : ∀ c ∈ L, c ∈ structClauses m lits ∨
    (∃ j : Nat, j < lits.length ∧ b ≤ (j : Int) ∧ c = unitClause m lits.length j) ∨
    (c = [] ∧ b < 0)
  bnd : 0 ≤ b → b < (lits.length : Int) →
    (∀ c ∈ structClauses m lits, c ∈ L) ∧ unitClause m lits.length b.toNat ∈ L
  neg : b < 0 → ([] : List Int) ∈ L

/-- Handle-state invariant: the clause database has the shape above for the
stored constraint, and whenever the network is flagged as built it is in the
database. -/
structure StInv (m : Nat) (d : MyDatas) : Prop where
  shape : ShapeInv m d.constraint.lits d.constraint.bound d.formula
  builtSub : d.constraint.built = true →
    ∀ c ∈ structClauses m d.constraint.lits, c ∈ d.formula

/-! ## The lingeling DIMACS driver (`lglmain.c`)

A direct embedding of `parse` and of `main`'s handling of its result
(lines 723 to 727 of the source).  The input is a character list; `next`'s
line counting is reproduced by bumping the line number at each consumed
newline.  Embedded `--name=value` option directives inside comment lines only
set options of the vendored solver (`lglsetopt`) and consume no characters
beyond the comment line, so comment skipping consumes exactly through the
terminating newline, as in the source.  Error messages are rendered without
quote characters but otherwise follow the source strings. -/

/-- The parse error cases of `lglmain.c`'s `parse`, one per returned string. -/
inductive ParseErr where
  | eofInComment
  | missingHeader
  | hdrSpaceAfterP
  | hdrC
  | hdrN
  | hdrF
  | hdrSpaceAfterF
  | hdrDigitM
  | hdrSpaceAfterM
  | hdrDigitN
  | hdrNewline
  | twoSections
  | clauseMissing
  | clausesMissing
  | tooManyClauses
  | posDigitAfterMinus
  | expectedDigit
  | maxVarExceeded

/-- The error string `parse` returns for each case (quote characters of the
source messages omitted; the `maxium` typo is the source's). -/
def errMsg : ParseErr → String
  | .eofInComment => "end of file in comment"
  | .missingHeader => "missing p ... header"
  | .hdrSpaceAfterP => "invalid header: expected space after p"
  | .hdrC => "invalid header: expected c after space"
  | .hdrN => "invalid header: expected n after c"
  | .hdrF => "invalid header: expected f after n"
  | .hdrSpaceAfterF => "invalid header: expected space after f"
  | .hdrDigitM => "invalid header: expected digit after p cnf"
  | .hdrSpaceAfterM => "invalid header: expected space after p cnf m"
  | .hdrDigitN => "invalid header: expected digit after p cnf m"
  | .hdrNewline => "invalid header: expected new line after header"
  | .twoSections => "two section headers in a row"
  | .clauseMissing => "clause missing"
  | .clausesMissing => "clauses missing"
  | .tooManyClauses => "too many clauses"
  | .posDigitAfterMinus => "expected positive digit after minus"
  | .expectedDigit => "expected digit"
  | .maxVarExceeded => "maxium variable index exceeded"

/-- `next` bumps the line counter when it consumes a newline. -/
def bumpLine (ln : Nat) (ch : Char) : Nat :=
  if ch = '\n' then ln + 1 else ln

/-- Numeric value of a digit character. -/
def digitVal (ch : Char) : Nat :=
  ch.toNat - 48

/-- The leading whitespace/comment skipping loop (`SKIP` label): returns the
first character outside whitespace and comments (already consumed), or `none`
at end of file; fails if the file ends inside a comment. -/
def parseSkip (inComment : Bool) (input : List Char) (ln : Nat) :
    Except (ParseErr × Nat) (Option Char × List Char × Nat) :=
  match input with
  | [] => if inComment then .error (.eofInComment, ln) else .ok (none, [], ln)
  | ch :: rest =>
    if inComment then
      if ch = '\n' then parseSkip false rest (ln + 1) else parseSkip true rest ln
    else if ch = ' ' ∨ ch = '\t' ∨ ch = '\n' ∨ ch = '\r' then
      parseSkip false rest (bumpLine ln ch)
    else if ch = 'c' then parseSkip true rest ln
    else .ok (some ch, rest, bumpLine ln ch)

/-- Consume one character and require it to be `want` (a `next` call followed
by an equality check in the header parser). -/
def expectCh (want : Char) (e : ParseErr) (input : List Char) (ln : Nat) :
    Except (ParseErr × Nat) (List Char × Nat) :=
  match input with
  | [] => .error (e, ln)
  | ch :: rest =>
    if ch = want then .ok (rest, bumpLine ln ch) else .error (e, bumpLine ln ch)

/-- The `while ((ch = next) == ' ')` loops: consume spaces and return the
first non-space character (already consumed), or `none` at end of file. -/
def skipSpacesGet (input : List Char) (ln : Nat) : Option Char × List Char × Nat :=
  match input with
  | [] => (none, [], ln)
  | ch :: rest =>
    if ch = ' ' then skipSpacesGet rest ln else (some ch, rest, bumpLine ln ch)

/-- The `while (isdigit (ch = next)) val = 10*val + (ch - '0')` loops: extend
`acc` with consumed digits and return the terminating character (already
consumed), or `none` at end of file. -/
def readDigits (acc : Nat) (input : List Char) (ln : Nat) :
    Nat × Option Char × List Char × Nat :=
  match input with
  | [] => (acc, none, [], ln)
  | ch :: rest =>
    if ch.isDigit then readDigits (10 * acc + digitVal ch) rest ln
    else (acc, some ch, rest, bumpLine ln ch)

/-- Trailer of the header line: optional spaces, an optional carriage return,
then the mandatory newline (already consumed terminator `term` in hand). -/
def finishHeaderAt (mv nc : Nat) (t : Char) (input : List Char) (ln : Nat) :
    Except (ParseErr × Nat) (Nat × Nat × List Char × Nat) :=
  if t = '\r' then
    match input with
    | [] => .error (.hdrNewline, ln)
    | ch :: rest =>
      if ch = '\n' then .ok (mv, nc, rest, ln + 1)
      else .error (.hdrNewline, bumpLine ln ch)
  else if t = '\n' then .ok (mv, nc, input, ln)
  else .error (.hdrNewline, ln)

/-- Trailer of the header line starting from the terminator of the clause
count digits. -/
def finishHeader (mv nc : Nat) (term : Option Char) (input : List Char) (ln : Nat) :
    Except (ParseErr × Nat) (Nat × Nat × List Char × Nat) :=
  match term with
  | none => .error (.hdrNewline, ln)
  | some t =>
    if t = ' ' then
      match skipSpacesGet input ln with
      | (none, _, ln') => .error (.hdrNewline, ln')
      | (some t', r', ln') => finishHeaderAt mv nc t' r' ln'
    else finishHeaderAt mv nc t input ln

/-- The `p cnf <maxVar> <numClauses>` header parser, entered after the `p`
has been consumed; mirrors the check sequence of the source line by line. -/
def parseHeader (input : List Char) (ln : Nat) :
    Except (ParseErr × Nat) (Nat × Nat × List Char × Nat) := do
  let (r1, ln1) ← expectCh ' ' .hdrSpaceAfterP input ln
  match skipSpacesGet r1 ln1 with
  | (none, _, ln2) => .error (.hdrC, ln2)
  | (some c1, r2, ln2) =>
    if c1 ≠ 'c' then .error (.hdrC, ln2)
    else do
      let (r3, ln3) ← expectCh 'n' .hdrN r2 ln2
      let (r4, ln4) ← expectCh 'f' .hdrF r3 ln3
      let (r5, ln5) ← expectCh ' ' .hdrSpaceAfterF r4 ln4
      match skipSpacesGet r5 ln5 with
      | (none, _, ln6) => .error (.hdrDigitM, ln6)
      | (some d1, r6, ln6) =>
        if ¬ d1.isDigit then .error (.hdrDigitM, ln6)
        else
          match readDigits (digitVal d1) r6 ln6 with
          | (mv, none, _, ln7) => .error (.hdrSpaceAfterM, ln7)
          | (mv, some t1, r7, ln7) =>
            if t1 ≠ ' ' then .error (.hdrSpaceAfterM, ln7)
            else
              match skipSpacesGet r7 ln7 with
              | (none, _, ln8) => .error (.hdrDigitN, ln8)
              | (some d2, r8, ln8) =>
                if ¬ d2.isDigit then .error (.hdrDigitN, ln8)
                else
                  match readDigits (digitVal d2) r8 ln8 with
                  | (nc, term2, r9, ln9) => finishHeader mv nc term2 r9 ln9

/-- The mutable state of the clause body loop: declared maximum variable `m`
and clause count `n`, the `header` and section flags, the running counters
`v`, `c`, `l`, the literals passed to `lgladd` so far (`adds`, the formula
handed to the engine), and the literals marked important (`o` section). -/
structure BodyState where
  m : Nat
  n : Nat
  header : Bool
  sect : Bool
  v : Nat
  c : Nat
  l : Nat
  adds : List Int
  important : List Int

/-- Lexer mode of the body loop: between tokens, inside a comment, after a
minus sign, or inside a number. -/
inductive BodyMode where
  | normal
  | comment
  | minus
  | num (sign : Bool) (acc : Nat)

/-- End-of-file checks of the body loop (`clause missing` when exactly one
clause short, `clauses missing` when more are missing). -/
def eofCheck (st : BodyState) (ln : Nat) : Option ParseErr × BodyState × Nat :=
  if st.header ∧ st.c + 1 = st.n then (some .clauseMissing, st, ln)
  else if st.header ∧ st.c < st.n then (some .clausesMissing, st, ln)
  else (none, st, ln)

/-- Processing of one completed literal token `lit` (with `sign`): the
maximum-variable check, the counter updates, and either the `o`-section
marking or the `lgladd` call; the returned flag signals the early `goto DONE`
taken with `ignaddcls` once the declared clause count is reached. -/
def procLit (ignAdd : Bool) (sign : Bool) (lit : Nat) (st : BodyState) :
    Except ParseErr (BodyState × Bool) :=
  if st.header ∧ st.m < lit then .error .maxVarExceeded
  else
    let st1 := { st with
      v := max st.v lit,
      l := if lit ≠ 0 then st.l + 1 else st.l,
      c := if lit = 0 then st.c + 1 else st.c }
    let slit : Int := if sign then -(lit : Int) else (lit : Int)
    if st1.sect then
      .ok ({ st1 with important := st1.important ++ [slit], sect := false }, false)
    else
      let st2 := { st1 with adds := st1.adds ++ [slit] }
      if lit = 0 ∧ ignAdd ∧ st2.c = st2.n then .ok (st2, true) else .ok (st2, false)

/-- The `BODY` loop of `parse`: token dispatch, comment skipping, the `o`
section flag, sign handling, number accumulation, and literal processing. -/
def parseBody (ignAdd : Bool) (mode : BodyMode) (st : BodyState)
    (input : List Char) (ln : Nat) : Option ParseErr × BodyState × Nat :=
  match input with
  | [] =>
    match mode with
    | .comment => (some .eofInComment, st, ln)
    | .minus => (some .expectedDigit, st, ln)
    | .num sign acc =>
      match procLit ignAdd sign acc st with
      | .error e => (some e, st, ln)
      | .ok (st', early) => if early then (none, st', ln) else eofCheck st' ln
    | .normal => eofCheck st ln
  | ch :: rest =>
    match mode with
    | .comment =>
      if ch = '\n' then parseBody ignAdd .normal st rest (ln + 1)
      else parseBody ignAdd .comment st rest ln
    | .minus =>
      if ch = '0' then (some .posDigitAfterMinus, st, ln)
      else if ch.isDigit then
        if st.header ∧ ¬ st.sect ∧ st.c = st.n then (some .tooManyClauses, st, ln)
        else parseBody ignAdd (.num true (digitVal ch)) st rest ln
      else (some .expectedDigit, st, bumpLine ln ch)
    | .num sign acc =>
      if ch.isDigit then parseBody ignAdd (.num sign (10 * acc + digitVal ch)) st rest ln
      else
        match procLit ignAdd sign acc st with
        | .error e => (some e, st, bumpLine ln ch)
        | .ok (st', early) =>
          if early then (none, st', bumpLine ln ch)
          else parseBody ignAdd .normal st' rest (bumpLine ln ch)
    | .normal =>
      if ch = ' ' ∨ ch = '\t' ∨ ch = '\n' ∨ ch = '\r' then
        parseBody ignAdd .normal st rest (bumpLine ln ch)
      else if ch = 'c' then parseBody ignAdd .comment st rest ln
      else if ch = 'o' then
        if st.sect then (some .twoSections, st, ln)
        else parseBody ignAdd .normal { st with sect := true } rest ln
      else if ch = '-' then parseBody ignAdd .minus st rest ln
      else if ch.isDigit then
        if st.header ∧ ¬ st.sect ∧ st.c = st.n then (some .tooManyClauses, st, ln)
        else parseBody ignAdd (.num false (digitVal ch)) st rest ln
      else (some .expectedDigit, st, bumpLine ln ch)

/-- Skip the rest of a line (used with `--force` on a `p` line), end of file
allowed. -/
def skipLine (input : List Char) (ln : Nat) : List Char × Nat :=
  match input with
  | [] => ([], ln)
  | ch :: rest => if ch = '\n' then (rest, ln + 1) else skipLine rest ln

/-- The observable outcome of `parse`: the error (if any), the final line
number `*lp`, the literals handed to `lgladd`, and the important literals. -/
structure ParseOutput where
  err : Option ParseErr
  lineno : Nat
  adds : List Int
  important : List Int

/-- Initial body state. -/
def initialBody (hdr : Bool) (mv nc : Nat) : BodyState :=
  ⟨mv, nc, hdr, false, 0, 0, 0, [], []⟩

/-- Package a body-loop result. -/
def mkOut (r : Option ParseErr × BodyState × Nat) : ParseOutput :=
  ⟨r.1, r.2.2, r.2.1.adds, r.2.1.important⟩

/-- `parse` of `lglmain.c`: skip leading whitespace and comments, parse the
header (unless `ignmissingheader` is set), then run the body loop.  The line
counter starts at 1, as in `main`. -/
def parse (ignMiss ignAdd : Bool) (input : List Char) : ParseOutput :=
  match parseSkip false input 1 with
  | .error (e, ln) => ⟨some e, ln, [], []⟩
  | .ok (none, _, ln) =>
    if ignMiss then mkOut (parseBody ignAdd .normal (initialBody false 0 0) [] ln)
    else ⟨some .missingHeader, ln, [], []⟩
  | .ok (some ch, rest, ln) =>
    if ignMiss then
      if ch = 'p' then
        let r := skipLine rest ln
        mkOut (parseBody ignAdd .normal (initialBody false 0 0) r.1 r.2)
      else mkOut (parseBody ignAdd .normal (initialBody false 0 0) (ch :: rest) ln)
    else if ch = 'p' then
      match parseHeader rest ln with
      | .error (e, ln') => ⟨some e, ln', [], []⟩
      | .ok (mv, nc, rest', ln') =>
        mkOut (parseBody ignAdd .normal (initialBody true mv nc) rest' ln')
    else ⟨some .missingHeader, ln, [], []⟩

/-- The driver outcome relevant to error handling: either the parse failed
(with the `fprintf (stderr, "%s:%d: %s", iname, lineno, err)` message and
`res = 1`, the solver never invoked) or parsing succeeded and the accumulated
formula goes on to `lglsat`. -/
inductive DriverResult where
  | parseFailed (message : String) (exitCode : Nat) (adds : List Int)
  | solved (adds : List Int) (important : List Int)

/-- `main`'s treatment of `parse` (lines 723 to 727 of `lglmain.c`), with the
default option flags: on a parse error print `iname:lineno: err`, set
`res = 1` and jump to `DONE` without solving. -/
def runDriver (iname : String) (input : List Char) : DriverResult :=
  match (parse false false input).err with
  | some e =>
    .parseFailed
      (iname ++ ":" ++ toString (parse false false input).lineno ++ ": " ++ errMsg e)
      1 (parse false false input).adds
  | none => .solved (parse false false input).adds (parse false false input).important

/-! ## The Glucose wrappers (`gluc_JGlucose.cpp`, `glucp_JPGlucose.cpp`)

The Glucose solver itself is external; its literal representation and model
values are modelled from the specification and from the wrappers' own
comments (`0 means true and 1 means false`). -/

/-- Modelled from the spec: Glucose's three-valued `lbool`; `toInt` maps
true to 0, false to 1 and undefined to 2 (the wrapper comment documents the
first two). -/
inductive GlucLBool where
  | ltrue
  | lfalse
  | lundef

/-- `toInt` on `lbool`. -/
def toIntL : GlucLBool → Int
  | .ltrue => 0
  | .lfalse => 1
  | .lundef => 2

/-- Modelled from the spec: Glucose `mkLit` packs variable and polarity as
`2 * var + sign`. -/
def mkLitG (v : Nat) : Nat := 2 * v

/-- Modelled from the spec: Glucose literal negation flips the low bit. -/
def litNegG (l : Nat) : Nat := l ^^^ 1

/-- Modelled from the spec: Glucose literal sign bit. -/
def litSignG (l : Nat) : Bool := l % 2 = 1

/-- Modelled from the spec: Glucose variable of a literal. -/
def litVarG (l : Nat) : Nat := l / 2

/-- Modelled from the spec: `lbool` exclusive-or with a sign bit. -/
def lboolXor : GlucLBool → Bool → GlucLBool
  | .ltrue, true => .lfalse
  | .lfalse, true => .ltrue
  | .lundef, true => .lundef
  | x, false => x

/-- Modelled from the spec: `Solver::modelValue(Lit p) = model[var(p)] ^
sign(p)`. -/
def modelValueG (model : Nat → GlucLBool) (l : Nat) : GlucLBool :=
  lboolXor (model (litVarG l)) (litSignG l)

/-- `Java_gluc_JGlucose_gderef` (simp wrapper, source): external literal `a`
becomes internal variable `|a| - 1` with the polarity of `a`; returns
`toInt(S->modelValue(l))`. -/
def gderef (model : Nat → GlucLBool) (a : Int) : Int :=
  let varl := a.natAbs - 1
  let l := if 0 < a then mkLitG varl else litNegG (mkLitG varl)
  toIntL (modelValueG model l)

/-- `Java_glucp_JPGlucose_gderef` (parallel wrapper, source): the literal `l`
is computed exactly as in the simp wrapper but the return value is
`toInt(S->model[varl])`, the raw value of the variable — the polarity of `a`
is dropped. -/
def gderefParallel (model : Nat → GlucLBool) (a : Int) : Int :=
  let varl := a.natAbs - 1
  let _l := if 0 < a then mkLitG varl else litNegG (mkLitG varl)
  toIntL (model varl)

/-- Modelled from the spec: a Glucose `SimpSolver` at its solve interface
(the search itself is the external SAT Engine of spec section 6);
`solveResult` is the verdict `S->solve()` computes. -/
structure SimpSolver where
  solveResult : Bool

/-- `Java_gluc_JGlucose_gsat_1time` (source): the `signal`/`alarm` timeout
machinery and the `terminated` test are commented out; the function calls
`S->solve()` and returns its result, with the time budget `t` unused. -/
def gsat_time (S : SimpSolver) (t : Int) : Bool :=
  S.solveResult

/-- `Java_gluc_JGlucose_gsat` (source): solve without a timeout. -/
def gsat (S : SimpSolver) : Bool :=
  S.solveResult

/-! ## The IPASIR bridges -/

/-- Modelled from the spec: `picosat_deref` / `lglderef` after a SAT result —
the engine's `value(literal)` is true or false (spec section 6), encoded as
`+1` / `-1`. -/
def derefModel (μ : Nat → Bool) (lit : Int) : Int :=
  if litVal μ lit then 1 else -1

/-- `ipasir_val` of `ipasirpicosat/ipasirsolver.c` (source): 0 is passed
through, otherwise the sign of the deref value selects the literal or its
negation. -/
def ipasirValPicosat (μ : Nat → Bool) (literal : Int) : Int :=
  let val := derefModel μ literal
  if val = 0 then 0
  else if val < 0 then -1 * literal else literal

/-- `ipasir_val` of `ipasirlingeling/ipasirsolver.c` (source). -/
def ipasirValLingeling (μ : Nat → Bool) (literal : Int) : Int :=
  let val := derefModel μ literal
  if val < 0 then -1 * literal else literal

/-- The two IPASIR backends the native bridge is linked against. -/
inductive Backend where
  | picosat
  | lingeling

/-- `Java_jdrasil_sat_NativeSATSolver_val` (source): forwards to the linked
backend's `ipasir_val`. -/
def nativeSolverVal (b : Backend) (μ : Nat → Bool) (literal : Int) : Int :=
  match b with
  | .picosat => ipasirValPicosat μ literal
  | .lingeling => ipasirValLingeling μ literal

/-! ## Lemmas: literal evaluation and counting -/

theorem litVal_neg (σ : Nat → Bool) (l : Int) (h : l ≠ 0) :
    litVal σ (-l) = ! litVal σ l := by
  unfold litVal
  rcases lt_trichotomy l 0 with hl | hl | hl
  · rw [if_pos (show (0 : Int) < -l by omega), if_neg (show ¬ (0 : Int) < l by omega),
      Int.natAbs_neg, Bool.not_not]
  · exact absurd hl h
  · rw [if_neg (show ¬ (0 : Int) < -l by omega), if_pos hl, Int.natAbs_neg]

theorem litVal_agree (σ α : Nat → Bool) (m : Nat) (l : Int)
    (hlt : l.natAbs < m) (hag : ∀ v, v < m → σ v = α v) :
    litVal σ l = litVal α l := by
  unfold litVal
  rw [hag l.natAbs hlt]

theorem cntTrue_agree (σ α : Nat → Bool) (m : Nat) (ls : List Int)
    (hlt : ∀ l ∈ ls, l.natAbs < m) (hag : ∀ v, v < m → σ v = α v) :
    cntTrue σ ls = cntTrue α ls := by
  unfold cntTrue
  exact List.countP_congr (fun l hl => by rw [litVal_agree σ α m l (hlt l hl) hag])

theorem cntTrue_le_length (σ : Nat → Bool) (ls : List Int) :
    cntTrue σ ls ≤ ls.length :=
  List.countP_le_length _

theorem cntTrue_take_succ (σ : Nat → Bool) (ls : List Int) (i : Nat)
    (h : i < ls.length) :
    cntTrue σ (ls.take (i + 1)) =
      cntTrue σ (ls.take i) + (if litVal σ ls[i] = true then 1 else 0) := by
  unfold cntTrue
  rw [List.take_succ, List.countP_append]
  have : ls[i]? = some ls[i] := List.getElem?_eq_getElem h
  simp [this, List.countP_cons]

theorem cntTrue_take_mono (σ : Nat → Bool) (ls : List Int) (i : Nat)
    (h : i < ls.length) :
    cntTrue σ (ls.take i) ≤ cntTrue σ (ls.take (i + 1)) := by
  rw [cntTrue_take_succ σ ls i h]
  omega

theorem cntTrue_take_succ_true (σ : Nat → Bool) (ls : List Int) (i : Nat)
    (h : i < ls.length) (hb : litVal σ ls[i] = true) :
    cntTrue σ (ls.take (i + 1)) = cntTrue σ (ls.take i) + 1 := by
  rw [cntTrue_take_succ σ ls i h, hb]
  simp

theorem cntTrue_take_succ_false (σ : Nat → Bool) (ls : List Int) (i : Nat)
    (h : i < ls.length) (hb : litVal σ ls[i] = false) :
    cntTrue σ (ls.take (i + 1)) = cntTrue σ (ls.take i) := by
  rw [cntTrue_take_succ σ ls i h, hb]
  simp

/-! ## Lemmas: network variables and the canonical assignment -/

theorem sLit_pos (m n i j : Nat) (hm : 0 < m) : 0 < sLit m n i j := by
  unfold sLit
  omega

theorem sLit_natAbs (m n i j : Nat) : (sLit m n i j).natAbs = m + i * n + j := by
  unfold sLit
  exact Int.natAbs_ofNat _

theorem litVal_sLit (σ : Nat → Bool) (m n i j : Nat) (hm : 0 < m) :
    litVal σ (sLit m n i j) = σ (m + i * n + j) := by
  unfold litVal
  rw [if_pos (sLit_pos m n i j hm), sLit_natAbs]

theorem litVal_neg_sLit (σ : Nat → Bool) (m n i j : Nat) (hm : 0 < m) :
    litVal σ (-(sLit m n i j)) = ! σ (m + i * n + j) := by
  rw [litVal_neg σ _ (by have := sLit_pos m n i j hm; omega),
    litVal_sLit σ m n i j hm]

theorem grid_lt (n i j : Nat) (hi : i < n) (hj : j < n) : i * n + j < n * n := by
  calc i * n + j < i * n + n := by omega
    _ = (i + 1) * n := by ring
    _ ≤ n * n := Nat.mul_le_mul_right n (by omega)

theorem grid_div (n i j : Nat) (hj : j < n) : (i * n + j) / n = i := by
  have hn : 0 < n := by omega
  rw [Nat.mul_comm i n, Nat.mul_add_div hn]
  have := Nat.div_eq_of_lt hj
  omega

theorem grid_mod (n i j : Nat) (hj : j < n) : (i * n + j) % n = j := by
  rw [Nat.mul_comm i n, Nat.mul_add_mod, Nat.mod_eq_of_lt hj]

theorem canon_lt (m : Nat) (lits : List Int) (α : Nat → Bool) (v : Nat)
    (h : v < m) : canon m lits α v = α v := by
  unfold canon
  rw [if_pos h]

theorem canon_sVar (m : Nat) (lits : List Int) (α : Nat → Bool) (i j : Nat)
    (hi : i < lits.length) (hj : j < lits.length) :
    canon m lits α (m + i * lits.length + j) =
      decide (j + 1 ≤ cntTrue α (lits.take (i + 1))) := by
  unfold canon
  have h1 : ¬ (m + i * lits.length + j < m) := by omega
  have h2 : m + i * lits.length + j < m + lits.length * lits.length := by
    have := grid_lt lits.length i j hi hj
    omega
  rw [if_neg h1, if_pos h2]
  have h3 : m + i * lits.length + j - m = i * lits.length + j := by omega
  rw [h3, grid_div lits.length i j hj, grid_mod lits.length i j hj]

/-! ## Lemmas: membership in the structural clause list -/

theorem getD_eq (lits : List Int) (i : Nat) (h : i < lits.length) :
    lits.getD i 0 = lits[i] :=
  List.getD_eq_getElem lits 0 h

theorem structA_mem (m : Nat) (lits : List Int) (i : Nat) (hi : i < lits.length) :
    [-(lits.getD i 0), sLit m lits.length i 0] ∈ structClauses m lits := by
  unfold structClauses
  simp only [List.mem_flatMap]
  exact ⟨i, List.mem_range.2 hi, by simp⟩

theorem structB_mem (m : Nat) (lits : List Int) (i j : Nat)
    (hi : i + 1 < lits.length) (hj : j < lits.length) :
    [-(sLit m lits.length i j), sLit m lits.length (i + 1) j] ∈
      structClauses m lits := by
  unfold structClauses
  simp only [List.mem_flatMap]
  refine ⟨i + 1, List.mem_range.2 hi, ?_⟩
  simp only [if_neg (Nat.succ_ne_zero i), List.mem_append, List.mem_map,
    List.mem_range, List.mem_singleton, Nat.add_sub_cancel]
  exact Or.inr (Or.inl ⟨j, hj, rfl⟩)

theorem structC_mem (m : Nat) (lits : List Int) (i j : Nat)
    (hi : i + 1 < lits.length) (hj : j < lits.length - 1) :
    [-(sLit m lits.length i j), -(lits.getD (i + 1) 0),
      sLit m lits.length (i + 1) (j + 1)] ∈ structClauses m lits := by
  unfold structClauses
  simp only [List.mem_flatMap]
  refine ⟨i + 1, List.mem_range.2 hi, ?_⟩
  simp only [if_neg (Nat.succ_ne_zero i), List.mem_append, List.mem_map,
    List.mem_range, List.mem_singleton, Nat.add_sub_cancel]
  exact Or.inr (Or.inr ⟨j, hj, rfl⟩)

theorem struct_mem_cases (m : Nat) (lits : List Int) (c : List Int)
    (hc : c ∈ structClauses m lits) :
    ∃ i, i < lits.length ∧
      (c = [-(lits.getD i 0), sLit m lits.length i 0] ∨
        (i ≠ 0 ∧
          ((∃ j, j < lits.length ∧
              c = [-(sLit m lits.length (i - 1) j), sLit m lits.length i j]) ∨
            (∃ j, j < lits.length - 1 ∧
              c = [-(sLit m lits.length (i - 1) j), -(lits.getD i 0),
                sLit m lits.length i (j + 1)])))) := by
  unfold structClauses at hc
  simp only [List.mem_flatMap, List.mem_range] at hc
  obtain ⟨i, hi, hin⟩ := hc
  refine ⟨i, hi, ?_⟩
  by_cases h0 : i = 0
  · subst h0
    rw [if_pos rfl, List.append_nil, List.mem_singleton] at hin
    exact Or.inl hin
  · simp only [if_neg h0, List.mem_append, List.mem_map, List.mem_range,
      List.mem_cons, List.not_mem_nil, or_false] at hin
    rcases hin with h | h | h
    · exact Or.inl h
    · obtain ⟨j, hj, hcj⟩ := h
      exact Or.inr ⟨h0, Or.inl ⟨j, hj, hcj.symm⟩⟩
    · obtain ⟨j, hj, hcj⟩ := h
      exact Or.inr ⟨h0, Or.inr ⟨j, hj, hcj.symm⟩⟩

/-! ## Lemmas: the canonical assignment satisfies the network -/

theorem evalClause_two (σ : Nat → Bool) (a b : Int) :
    evalClause σ [a, b] = (litVal σ a || litVal σ b) := by
  simp [evalClause]

theorem evalClause_three (σ : Nat → Bool) (a b c : Int) :
    evalClause σ [a, b, c] = (litVal σ a || (litVal σ b || litVal σ c)) := by
  simp [evalClause]

theorem evalClause_one (σ : Nat → Bool) (a : Int) :
    evalClause σ [a] = litVal σ a := by
  simp [evalClause]

theorem canon_sat_struct (m : Nat) (lits : List Int) (α : Nat → Bool)
    (hm : 0 < m) (hnz : ∀ l ∈ lits, l ≠ 0) (hlt : ∀ l ∈ lits, l.natAbs < m) :
    ∀ c ∈ structClauses m lits, evalClause (canon m lits α) c = true := by
  intro c hc
  obtain ⟨i, hi, hcase⟩ := struct_mem_cases m lits c hc
  have hagree : ∀ v, v < m → canon m lits α v = α v := canon_lt m lits α
  rcases hcase with hA | ⟨h0, hBC⟩
  · subst hA
    rw [evalClause_two]
    rw [getD_eq lits i hi]
    by_cases hb : litVal α lits[i] = true
    · rw [litVal_sLit _ m lits.length i 0 hm,
        show m + i * lits.length + 0 = m + i * lits.length + 0 from rfl,
        canon_sVar m lits α i 0 hi (by omega)]
      have hsucc := cntTrue_take_succ_true α lits i hi hb
      have hge : 0 + 1 ≤ cntTrue α (lits.take (i + 1)) := by omega
      simp [hge]
    · have hz : lits[i] ≠ 0 := hnz _ (List.getElem_mem hi)
      rw [litVal_neg _ _ hz,
        litVal_agree (canon m lits α) α m lits[i] (hlt _ (List.getElem_mem hi)) hagree]
      simp only [Bool.not_eq_true] at hb
      rw [hb]
      simp
  · rcases hBC with ⟨j, hj, hB⟩ | ⟨j, hj, hC⟩
    · subst hB
      rw [evalClause_two]
      obtain ⟨i', rfl⟩ : ∃ i', i = i' + 1 := ⟨i - 1, by omega⟩
      rw [Nat.add_sub_cancel]
      rw [litVal_neg_sLit _ m lits.length i' j hm, litVal_sLit _ m lits.length (i' + 1) j hm,
        canon_sVar m lits α i' j (by omega) hj, canon_sVar m lits α (i' + 1) j hi hj]
      by_cases ha : j + 1 ≤ cntTrue α (lits.take (i' + 1))
      · have hmono := cntTrue_take_mono α lits (i' + 1) hi
        have hb : j + 1 ≤ cntTrue α (lits.take (i' + 1 + 1)) := by omega
        simp [hb]
      · simp [ha]
    · subst hC
      rw [evalClause_three]
      obtain ⟨i', rfl⟩ : ∃ i', i = i' + 1 := ⟨i - 1, by omega⟩
      rw [Nat.add_sub_cancel]
      rw [litVal_neg_sLit _ m lits.length i' j hm,
        litVal_sLit _ m lits.length (i' + 1) (j + 1) hm,
        canon_sVar m lits α i' j (by omega) (by omega),
        canon_sVar m lits α (i' + 1) (j + 1) hi (by omega)]
      rw [getD_eq lits (i' + 1) hi]
      by_cases ha : j + 1 ≤ cntTrue α (lits.take (i' + 1))
      · by_cases hb : litVal α lits[i' + 1] = true
        · have hsucc := cntTrue_take_succ_true α lits (i' + 1) hi hb
          have hc2 : j + 1 + 1 ≤ cntTrue α (lits.take (i' + 1 + 1)) := by omega
          simp [hc2]
        · have hz : lits[i' + 1] ≠ 0 := hnz _ (List.getElem_mem hi)
          rw [litVal_neg _ _ hz,
            litVal_agree (canon m lits α) α m lits[i' + 1]
              (hlt _ (List.getElem_mem hi)) hagree]
          simp only [Bool.not_eq_true] at hb
          rw [hb]
          simp
      · simp [ha]

theorem canon_eval_unit (m : Nat) (lits : List Int) (α : Nat → Bool) (j : Nat)
    (hm : 0 < m) (hn : 0 < lits.length) (hj : j < lits.length) :
    evalClause (canon m lits α) (unitClause m lits.length j) =
      decide (cntTrue α lits ≤ j) := by
  unfold unitClause
  rw [evalClause_one, litVal_neg_sLit _ m lits.length (lits.length - 1) j hm,
    canon_sVar m lits α (lits.length - 1) j (by omega) hj]
  rw [show lits.length - 1 + 1 = lits.length by omega, List.take_length]
  rw [← decide_not]
  exact decide_eq_decide.2 (by omega)

/-! ## Lemmas: the network forces count outputs (soundness) -/

theorem struct_sound (m : Nat) (lits : List Int) (σ : Nat → Bool)
    (L : List (List Int)) (hm : 0 < m) (hnz : ∀ l ∈ lits, l ≠ 0)
    (hsub : ∀ c ∈ structClauses m lits, c ∈ L) (hsat : satLog σ L) :
    ∀ i, i < lits.length → ∀ j, j < lits.length →
      j + 1 ≤ cntTrue σ (lits.take (i + 1)) →
      σ (m + i * lits.length + j) = true := by
  intro i
  induction i with
  | zero =>
    intro hi j hj hcnt
    have hle : cntTrue σ (lits.take (0 + 1)) ≤ 1 := by
      have h1 := cntTrue_le_length σ (lits.take (0 + 1))
      have h2 : (lits.take (0 + 1)).length ≤ 1 := by
        rw [List.length_take]
        omega
      omega
    have hj0 : j = 0 := by omega
    subst hj0
    by_cases hb : litVal σ lits[0] = true
    case pos =>
      have hA := hsub _ (structA_mem m lits 0 hi)
      have h2 := hsat _ hA
      rw [evalClause_two, getD_eq lits 0 hi, litVal_neg _ _ (hnz _ (List.getElem_mem hi)),
        litVal_sLit σ m lits.length 0 0 hm, hb] at h2
      simpa using h2
    case neg =>
      exfalso
      have hfalse : litVal σ lits[0] = false := by simpa using hb
      have h0 := cntTrue_take_succ_false σ lits 0 hi hfalse
      have hz : cntTrue σ (lits.take 0) = 0 := by simp [cntTrue]
      omega
  | succ i ih =>
    intro hi j hj hcnt
    have hi' : i < lits.length := by omega
    by_cases hb : litVal σ lits[i + 1] = true
    case pos =>
      match j with
      | 0 =>
        have hA := hsub _ (structA_mem m lits (i + 1) hi)
        have h2 := hsat _ hA
        rw [evalClause_two, getD_eq lits (i + 1) hi,
          litVal_neg _ _ (hnz _ (List.getElem_mem hi)),
          litVal_sLit σ m lits.length (i + 1) 0 hm, hb] at h2
        simpa using h2
      | j' + 1 =>
        have hsucc := cntTrue_take_succ_true σ lits (i + 1) hi hb
        have hih : j' + 1 ≤ cntTrue σ (lits.take (i + 1)) := by omega
        have hs := ih hi' j' (by omega) hih
        have hC := hsub _ (structC_mem m lits i j' hi (by omega))
        have h3 := hsat _ hC
        rw [evalClause_three, getD_eq lits (i + 1) hi,
          litVal_neg_sLit σ m lits.length i j' hm,
          litVal_neg _ _ (hnz _ (List.getElem_mem hi)),
          litVal_sLit σ m lits.length (i + 1) (j' + 1) hm, hs, hb] at h3
        simpa using h3
    case neg =>
      have hfalse : litVal σ lits[i + 1] = false := by simpa using hb
      have hsucc := cntTrue_take_succ_false σ lits (i + 1) hi hfalse
      have hs := ih hi' j hj (by omega)
      have hB := hsub _ (structB_mem m lits i j hi hj)
      have h2 := hsat _ hB
      rw [evalClause_two, litVal_neg_sLit σ m lits.length i j hm,
        litVal_sLit σ m lits.length (i + 1) j hm, hs] at h2
      simpa using h2

/-! ## The master characterization: a shaped clause database is satisfiable
for `α` exactly when the count of true literals respects the current bound -/

theorem shape_sat (m : Nat) (lits : List Int) (b : Int) (L : List (List Int))
    (hm : 0 < m) (hnz : ∀ l ∈ lits, l ≠ 0) (hlt : ∀ l ∈ lits, l.natAbs < m)
    (hs : ShapeInv m lits b L) (α : Nat → Bool) :
    SatFor m L α ↔ (cntTrue α lits : Int) ≤ b := by
  constructor
  · rintro ⟨σ, hag, hsat⟩
    by_cases hneg : b < 0
    · exfalso
      have hempty := hs.neg hneg
      have := hsat _ hempty
      simp [evalClause] at this
    · push_neg at hneg
      by_cases hbig : (lits.length : Int) ≤ b
      · have := cntTrue_le_length α lits
        omega
      · push_neg at hbig
        obtain ⟨hsub, hunit⟩ := hs.bnd hneg hbig
        by_contra hcon
        push_neg at hcon
        have hagree := cntTrue_agree σ α m lits hlt hag
        have hn : 0 < lits.length := by omega
        have hcnt : b.toNat + 1 ≤ cntTrue σ (lits.take lits.length) := by
          rw [List.take_length, hagree]
          omega
        have hforced := struct_sound m lits σ L hm hnz hsub hsat
          (lits.length - 1) (by omega) b.toNat (by omega)
          (by rw [show lits.length - 1 + 1 = lits.length by omega]; exact hcnt)
        have hu := hsat _ hunit
        rw [show unitClause m lits.length b.toNat =
            [-(sLit m lits.length (lits.length - 1) b.toNat)] from rfl,
          evalClause_one, litVal_neg_sLit σ m lits.length (lits.length - 1) b.toNat hm,
          hforced] at hu
        simp at hu
  · intro hcnt
    by_cases hneg : b < 0
    · exfalso
      have : (0 : Int) ≤ (cntTrue α lits : Int) := Int.ofNat_nonneg _
      omega
    · push_neg at hneg
      refine ⟨canon m lits α, canon_lt m lits α, ?_⟩
      intro c hc
      rcases hs.mem c hc with hstruct | ⟨j, hj, hbj, hcu⟩ | ⟨_, hb0⟩
      · exact canon_sat_struct m lits α hm hnz hlt c hstruct
      · subst hcu
        rw [canon_eval_unit m lits α j hm (by omega) hj]
        have hle : cntTrue α lits ≤ j := by omega
        simp [hle]
      · omega

/-! ## Lemmas: computation rules of the wrapper entry points -/

theorem construct_ok (body : List Int) (k : Int) (hne : body ≠ []) :
    construct (body.map (fun l => (l, 1))) k = .ok ⟨body.map (fun l => (l, 1)), k⟩ := by
  unfold construct
  have h1 : (body.map (fun l => (l, (1 : Int)))).isEmpty = false := by
    cases body with
    | nil => exact absurd rfl hne
    | cons a as => simp
  have h2 : (body.map (fun l => (l, (1 : Int)))).any (fun p => p.2 == 0) = false := by
    simp
  rw [h1, h2]
  simp

theorem initIter_eq (body : List Int) (k : Int) (m : Nat) (d : MyDatas)
    (hne : body ≠ []) :
    initIterAtMostK body k m d =
      .ok ⟨⟨(encodeIncInital ⟨body, k, false⟩ d.formula m).2.1,
            (encodeIncInital ⟨body, k, false⟩ d.formula m).1⟩,
          (encodeIncInital ⟨body, k, false⟩ d.formula m).2.1,
          (encodeIncInital ⟨body, k, false⟩ d.formula m).2.2⟩ := by
  unfold initIterAtMostK
  rw [construct_ok body k hne]

theorem encodeInc_neg (c : IncConstraint) (f : List (List Int)) (m : Nat)
    (h : c.bound < 0) :
    encodeIncInital c f m = (⟨c.lits, c.bound, false⟩, f ++ [[]], []) := by
  unfold encodeIncInital
  rw [if_pos h]

theorem encodeInc_trivial (c : IncConstraint) (f : List (List Int)) (m : Nat)
    (h1 : ¬ c.bound < 0) (h2 : (c.lits.length : Int) ≤ c.bound) :
    encodeIncInital c f m = (⟨c.lits, c.bound, false⟩, f, []) := by
  unfold encodeIncInital
  rw [if_neg h1, if_pos h2]

theorem encodeInc_main (c : IncConstraint) (f : List (List Int)) (m : Nat)
    (h1 : ¬ c.bound < 0) (h2 : ¬ (c.lits.length : Int) ≤ c.bound) :
    encodeIncInital c f m =
      (⟨c.lits, c.bound, true⟩,
        f ++ structClauses m c.lits ++ [unitClause m c.lits.length c.bound.toNat],
        auxAlloc m (c.lits.length * c.lits.length)) := by
  unfold encodeIncInital
  rw [if_neg h1, if_neg h2]

theorem encodeNewLeq_err (k : Int) (m : Nat) (c : IncConstraint)
    (f : List (List Int)) (h : c.bound ≤ k) :
    encodeNewLeq k m c f = .error .NonMonotonicBound := by
  unfold encodeNewLeq
  rw [if_pos h]

theorem encodeNewLeq_neg (k : Int) (m : Nat) (c : IncConstraint)
    (f : List (List Int)) (h1 : ¬ c.bound ≤ k) (h2 : k < 0) :
    encodeNewLeq k m c f = .ok (⟨c.lits, k, c.built⟩, f ++ [[]], []) := by
  unfold encodeNewLeq
  rw [if_neg h1, if_pos h2]

theorem encodeNewLeq_trivial (k : Int) (m : Nat) (c : IncConstraint)
    (f : List (List Int)) (h1 : ¬ c.bound ≤ k) (h2 : ¬ k < 0)
    (h3 : (c.lits.length : Int) ≤ k) :
    encodeNewLeq k m c f = .ok (⟨c.lits, k, c.built⟩, f, []) := by
  unfold encodeNewLeq
  rw [if_neg h1, if_neg h2, if_pos h3]

theorem encodeNewLeq_unit (k : Int) (m : Nat) (c : IncConstraint)
    (f : List (List Int)) (h1 : ¬ c.bound ≤ k) (h2 : ¬ k < 0)
    (h3 : ¬ (c.lits.length : Int) ≤ k) (h4 : c.built = true) :
    encodeNewLeq k m c f =
      .ok (⟨c.lits, k, true⟩, f ++ [unitClause m c.lits.length k.toNat], []) := by
  unfold encodeNewLeq
  rw [if_neg h1, if_neg h2, if_neg h3, if_pos h4]

theorem encodeNewLeq_build (k : Int) (m : Nat) (c : IncConstraint)
    (f : List (List Int)) (h1 : ¬ c.bound ≤ k) (h2 : ¬ k < 0)
    (h3 : ¬ (c.lits.length : Int) ≤ k) (h4 : c.built = false) :
    encodeNewLeq k m c f =
      .ok (⟨c.lits, k, true⟩,
        f ++ structClauses m c.lits ++ [unitClause m c.lits.length k.toNat],
        auxAlloc m (c.lits.length * c.lits.length)) := by
  unfold encodeNewLeq
  rw [if_neg h1, if_neg h2, if_neg h3, if_neg (by simp [h4])]

theorem citer_of_encode (k : Int) (m : Nat) (d : MyDatas)
    (p : IncConstraint × List (List Int) × List Nat)
    (h : encodeNewLeq k m d.constraint d.formula = .ok p) :
    citerAtMostK k m d =
      .ok ⟨⟨p.2.1, p.1⟩, (p.2.1).drop d.formula.length, p.2.2⟩ := by
  unfold citerAtMostK
  rw [h]

theorem citer_err (k : Int) (m : Nat) (d : MyDatas) (e : PBError)
    (h : encodeNewLeq k m d.constraint d.formula = .error e) :
    citerAtMostK k m d = .error e := by
  unfold citerAtMostK
  rw [h]

theorem citerGeq_of_encode (k : Int) (m : Nat) (d : MyDatas)
    (p : IncConstraint × List (List Int) × List Nat)
    (h : encodeNewGeq k m d.constraint d.formula = .ok p) :
    citerAtLeastK k m d =
      .ok ⟨⟨p.2.1, p.1⟩, (p.2.1).drop d.formula.length, p.2.2⟩ := by
  unfold citerAtLeastK
  rw [h]

/-! ## Lemmas: the shape invariant across the constraint life cycle -/

theorem shape_init_neg (m : Nat) (body : List Int) (k : Int) (hk : k < 0) :
    ShapeInv m body k [[]] := by
  refine ⟨?_, ?_, ?_⟩
  · intro c hc
    rw [List.mem_singleton] at hc
    exact Or.inr (Or.inr ⟨hc, hk⟩)
  · intro h0 _
    omega
  · intro _
    exact List.mem_singleton.2 rfl

theorem shape_init_trivial (m : Nat) (body : List Int) (k : Int)
    (hk : (body.length : Int) ≤ k) : ShapeInv m body k [] := by
  refine ⟨?_, ?_, ?_⟩
  · intro c hc
    exact absurd hc (List.not_mem_nil c)
  · intro _ hlt
    omega
  · intro hneg
    have : (0 : Int) ≤ (body.length : Int) := Int.ofNat_nonneg _
    omega

theorem shape_init_main (m : Nat) (body : List Int) (k : Int)
    (hk1 : 0 ≤ k) (hk2 : k < (body.length : Int)) :
    ShapeInv m body k
      (structClauses m body ++ [unitClause m body.length k.toNat]) := by
  refine ⟨?_, ?_, ?_⟩
  · intro c hc
    rcases List.mem_append.1 hc with hs | hu
    · exact Or.inl hs
    · rw [List.mem_singleton] at hu
      exact Or.inr (Or.inl ⟨k.toNat, by omega, by omega, hu⟩)
  · intro _ _
    exact ⟨fun c hc => List.mem_append_left _ hc,
      List.mem_append_right _ (List.mem_singleton.2 rfl)⟩
  · intro hneg
    omega

theorem shape_tighten_neg (m : Nat) (lits : List Int) (b k : Int)
    (L : List (List Int)) (hs : ShapeInv m lits b L) (hk : k < b) (hkneg : k < 0) :
    ShapeInv m lits k (L ++ [[]]) := by
  refine ⟨?_, ?_, ?_⟩
  · intro c hc
    rcases List.mem_append.1 hc with hold | hnew
    · rcases hs.mem c hold with hstruct | ⟨j, hj, hbj, hcu⟩ | ⟨hce, _⟩
      · exact Or.inl hstruct
      · exact Or.inr (Or.inl ⟨j, hj, by omega, hcu⟩)
      · exact Or.inr (Or.inr ⟨hce, hkneg⟩)
    · rw [List.mem_singleton] at hnew
      exact Or.inr (Or.inr ⟨hnew, hkneg⟩)
  · intro h0 _
    omega
  · intro _
    exact List.mem_append_right _ (List.mem_singleton.2 rfl)

theorem shape_tighten_trivial (m : Nat) (lits : List Int) (b k : Int)
    (L : List (List Int)) (hs : ShapeInv m lits b L) (hk : k < b) (hk0 : 0 ≤ k)
    (hkbig : (lits.length : Int) ≤ k) : ShapeInv m lits k L := by
  refine ⟨?_, ?_, ?_⟩
  · intro c hc
    rcases hs.mem c hc with hstruct | ⟨j, hj, hbj, hcu⟩ | ⟨_, hbneg⟩
    · exact Or.inl hstruct
    · exact Or.inr (Or.inl ⟨j, hj, by omega, hcu⟩)
    · omega
  · intro _ hlt
    omega
  · intro hneg
    omega

theorem shape_tighten_unit (m : Nat) (lits : List Int) (b k : Int)
    (L : List (List Int)) (hs : ShapeInv m lits b L)
    (hsub : ∀ c ∈ structClauses m lits, c ∈ L) (hk : k < b) (hk0 : 0 ≤ k)
    (hklt : k < (lits.length : Int)) :
    ShapeInv m lits k (L ++ [unitClause m lits.length k.toNat]) := by
  refine ⟨?_, ?_, ?_⟩
  · intro c hc
    rcases List.mem_append.1 hc with hold | hnew
    · rcases hs.mem c hold with hstruct | ⟨j, hj, hbj, hcu⟩ | ⟨_, hbneg⟩
      · exact Or.inl hstruct
      · exact Or.inr (Or.inl ⟨j, hj, by omega, hcu⟩)
      · omega
    · rw [List.mem_singleton] at hnew
      exact Or.inr (Or.inl ⟨k.toNat, by omega, by omega, hnew⟩)
  · intro _ _
    exact ⟨fun c hc => List.mem_append_left _ (hsub c hc),
      List.mem_append_right _ (List.mem_singleton.2 rfl)⟩
  · intro hneg
    omega

theorem shape_tighten_build (m : Nat) (lits : List Int) (b k : Int)
    (L : List (List Int)) (hs : ShapeInv m lits b L) (hk : k < b) (hk0 : 0 ≤ k)
    (hklt : k < (lits.length : Int)) :
    ShapeInv m lits k
      (L ++ structClauses m lits ++ [unitClause m lits.length k.toNat]) := by
  refine ⟨?_, ?_, ?_⟩
  · intro c hc
    rcases List.mem_append.1 hc with hold | hnew
    · rcases List.mem_append.1 hold with hold' | hstruct
      · rcases hs.mem c hold' with hstruct | ⟨j, hj, hbj, hcu⟩ | ⟨_, hbneg⟩
        · exact Or.inl hstruct
        · exact Or.inr (Or.inl ⟨j, hj, by omega, hcu⟩)
        · omega
      · exact Or.inl hstruct
    · rw [List.mem_singleton] at hnew
      exact Or.inr (Or.inl ⟨k.toNat, by omega, by omega, hnew⟩)
  · intro _ _
    refine ⟨fun c hc => List.mem_append_left _ (List.mem_append_right _ hc), ?_⟩
    exact List.mem_append_right _ (List.mem_singleton.2 rfl)
  · intro hneg
    omega

/-! ## Lemmas: the handle invariant across the wrapper calls -/

theorem init_stinv (body : List Int) (k : Int) (m : Nat) (hne : body ≠ []) :
    ∃ r, initIterAtMostK body k m pblibInit = .ok r ∧ StInv m r.datas ∧
      r.datas.constraint.lits = body ∧ r.datas.constraint.bound = k ∧
      r.datas.formula = r.out := by
  have he := initIter_eq body k m pblibInit hne
  by_cases h1 : k < 0
  · rw [encodeInc_neg ⟨body, k, false⟩ pblibInit.formula m h1] at he
    refine ⟨_, he, ⟨?_, ?_⟩, rfl, rfl, rfl⟩
    · exact shape_init_neg m body k h1
    · intro hb
      exact absurd hb (by simp)
  · by_cases h2 : (body.length : Int) ≤ k
    · rw [encodeInc_trivial ⟨body, k, false⟩ pblibInit.formula m h1 h2] at he
      refine ⟨_, he, ⟨?_, ?_⟩, rfl, rfl, rfl⟩
      · exact shape_init_trivial m body k h2
      · intro hb
        exact absurd hb (by simp)
    · rw [encodeInc_main ⟨body, k, false⟩ pblibInit.formula m h1 h2] at he
      refine ⟨_, he, ⟨?_, ?_⟩, rfl, rfl, rfl⟩
      · exact shape_init_main m body k (by omega) (by omega)
      · intro _ c hc
        exact List.mem_append_left _ (List.mem_append_right _ hc)

theorem citer_preserve (m : Nat) (k : Int) (d : MyDatas) (r : CallResult)
    (hst : StInv m d) (h : citerAtMostK k m d = .ok r) :
    StInv m r.datas ∧ r.datas.constraint.lits = d.constraint.lits ∧
      r.datas.constraint.bound = k := by
  by_cases h1 : d.constraint.bound ≤ k
  · rw [citer_err k m d _ (encodeNewLeq_err k m d.constraint d.formula h1)] at h
    exact absurd h (by simp)
  · by_cases h2 : k < 0
    · rw [citer_of_encode k m d _
        (encodeNewLeq_neg k m d.constraint d.formula h1 h2)] at h
      obtain rfl := (Except.ok.inj h).symm
      refine ⟨⟨?_, ?_⟩, rfl, rfl⟩
      · exact shape_tighten_neg m d.constraint.lits d.constraint.bound k
          d.formula hst.shape (by omega) h2
      · intro hb c hc
        exact List.mem_append_left _ (hst.builtSub hb c hc)
    · by_cases h3 : (d.constraint.lits.length : Int) ≤ k
      · rw [citer_of_encode k m d _
          (encodeNewLeq_trivial k m d.constraint d.formula h1 h2 h3)] at h
        obtain rfl := (Except.ok.inj h).symm
        refine ⟨⟨?_, ?_⟩, rfl, rfl⟩
        · exact shape_tighten_trivial m d.constraint.lits d.constraint.bound k
            d.formula hst.shape (by omega) (by omega) h3
        · intro hb c hc
          exact hst.builtSub hb c hc
      · by_cases h4 : d.constraint.built = true
        · rw [citer_of_encode k m d _
            (encodeNewLeq_unit k m d.constraint d.formula h1 h2 h3 h4)] at h
          obtain rfl := (Except.ok.inj h).symm
          refine ⟨⟨?_, ?_⟩, rfl, rfl⟩
          · exact shape_tighten_unit m d.constraint.lits d.constraint.bound k
              d.formula hst.shape (hst.builtSub h4) (by omega) (by omega) (by omega)
          · intro _ c hc
            exact List.mem_append_left _ (hst.builtSub h4 c hc)
        · rw [citer_of_encode k m d _
            (encodeNewLeq_build k m d.constraint d.formula h1 h2 h3
              (by simpa using h4))] at h
          obtain rfl := (Except.ok.inj h).symm
          refine ⟨⟨?_, ?_⟩, rfl, rfl⟩
          · exact shape_tighten_build m d.constraint.lits d.constraint.bound k
              d.formula hst.shape (by omega) (by omega) (by omega)
          · intro _ c hc
            exact List.mem_append_left _ (List.mem_append_right _ hc)

theorem citer_ok_of_lt (m : Nat) (k : Int) (d : MyDatas)
    (h1 : k < d.constraint.bound) : ∃ r, citerAtMostK k m d = .ok r := by
  by_cases h2 : k < 0
  · exact ⟨_, citer_of_encode k m d _
      (encodeNewLeq_neg k m d.constraint d.formula (by omega) h2)⟩
  · by_cases h3 : (d.constraint.lits.length : Int) ≤ k
    · exact ⟨_, citer_of_encode k m d _
        (encodeNewLeq_trivial k m d.constraint d.formula (by omega) h2 h3)⟩
    · by_cases h4 : d.constraint.built = true
      · exact ⟨_, citer_of_encode k m d _
          (encodeNewLeq_unit k m d.constraint d.formula (by omega) h2 h3 h4)⟩
      · exact ⟨_, citer_of_encode k m d _
          (encodeNewLeq_build k m d.constraint d.formula (by omega) h2 h3
            (by simpa using h4))⟩

theorem run_preserve (m : Nat) (bs : List Int) :
    ∀ d : MyDatas, StInv m d →
      List.Chain (fun x y => y < x) d.constraint.bound bs →
      ∃ d', runTightenList bs m d = .ok d' ∧ StInv m d' ∧
        d'.constraint.lits = d.constraint.lits ∧
        d'.constraint.bound = bs.getLastD d.constraint.bound := by
  induction bs with
  | nil =>
    intro d hst _
    exact ⟨d, rfl, hst, rfl, by simp [List.getLastD]⟩
  | cons b rest ih =>
    intro d hst hchain
    rw [List.chain_cons] at hchain
    obtain ⟨hb, hrest⟩ := hchain
    obtain ⟨r, hr⟩ := citer_ok_of_lt m b d hb
    obtain ⟨hst', hlits, hbound⟩ := citer_preserve m b d r hst hr
    have hchain' : List.Chain (fun x y => y < x) r.datas.constraint.bound rest := by
      rw [hbound]
      exact hrest
    obtain ⟨d', hrun, hst'', hlits', hbound'⟩ := ih r.datas hst' hchain'
    refine ⟨d', ?_, hst'', by rw [hlits', hlits], ?_⟩
    · unfold runTightenList
      rw [hr]
      exact hrun
    · rw [hbound', hbound, List.getLastD_cons]

/-! ## Lemmas: computation rules of the AtLeast tighten encode -/

theorem encodeNewGeq_trivial (k : Int) (m : Nat) (c : IncConstraint)
    (f : List (List Int)) (h1 : ¬ k ≤ c.bound) (h2 : k ≤ 0) :
    encodeNewGeq k m c f = .ok (⟨c.lits, k, c.built⟩, f, []) := by
  unfold encodeNewGeq
  rw [if_neg h1, if_pos h2]

theorem encodeNewGeq_neg (k : Int) (m : Nat) (c : IncConstraint)
    (f : List (List Int)) (h1 : ¬ k ≤ c.bound) (h2 : ¬ k ≤ 0)
    (h3 : (c.lits.length : Int) < k) :
    encodeNewGeq k m c f = .ok (⟨c.lits, k, c.built⟩, f ++ [[]], []) := by
  unfold encodeNewGeq
  rw [if_neg h1, if_neg h2, if_pos h3]

theorem encodeNewGeq_unit (k : Int) (m : Nat) (c : IncConstraint)
    (f : List (List Int)) (h1 : ¬ k ≤ c.bound) (h2 : ¬ k ≤ 0)
    (h3 : ¬ (c.lits.length : Int) < k) (h4 : c.built = true) :
    encodeNewGeq k m c f =
      .ok (⟨c.lits, k, true⟩,
        f ++ [unitClause m c.lits.length ((c.lits.length : Int) - k).toNat], []) := by
  unfold encodeNewGeq
  rw [if_neg h1, if_neg h2, if_neg h3, if_pos h4]

theorem encodeNewGeq_build (k : Int) (m : Nat) (c : IncConstraint)
    (f : List (List Int)) (h1 : ¬ k ≤ c.bound) (h2 : ¬ k ≤ 0)
    (h3 : ¬ (c.lits.length : Int) < k) (h4 : c.built = false) :
    encodeNewGeq k m c f =
      .ok (⟨c.lits, k, true⟩,
        f ++ structClauses m (c.lits.map (fun l => -l)) ++
          [unitClause m c.lits.length ((c.lits.length : Int) - k).toNat],
        auxAlloc m (c.lits.length * c.lits.length)) := by
  unfold encodeNewGeq
  rw [if_neg h1, if_neg h2, if_neg h3, if_neg (by simp [h4])]

theorem citerGeq_err (k : Int) (m : Nat) (d : MyDatas) (e : PBError)
    (h : encodeNewGeq k m d.constraint d.formula = .error e) :
    citerAtLeastK k m d = .error e := by
  unfold citerAtLeastK
  rw [h]

theorem encodeNewGeq_err (k : Int) (m : Nat) (c : IncConstraint)
    (f : List (List Int)) (h : k ≤ c.bound) :
    encodeNewGeq k m c f = .error .NonMonotonicBound := by
  unfold encodeNewGeq
  rw [if_pos h]

/-! ## Lemmas: the fresh-variable allocator -/

theorem auxAlloc_mem (m k v : Nat) : v ∈ auxAlloc m k ↔ m ≤ v ∧ v < m + k := by
  unfold auxAlloc
  simp only [List.mem_map, List.mem_range]
  constructor
  · rintro ⟨i, hi, rfl⟩
    omega
  · intro ⟨h1, h2⟩
    exact ⟨v - m, by omega, by omega⟩

theorem auxAlloc_sorted (m k : Nat) : List.Pairwise (· < ·) (auxAlloc m k) := by
  unfold auxAlloc
  exact List.Pairwise.map (fun i => m + i)
    (fun a b hab => Nat.add_lt_add_left hab m) (List.pairwise_lt_range k)

/-! ## Claim theorems -/

/-- C1: for an AtMost constraint over nonzero literals below the allocator
base `m` and a strictly decreasing bound sequence `b0 > b1 > … > bn`, the
cumulative clause set after the initial encode at `b0` and the tighten deltas
down to the last bound has, for every assignment `α` of the original
literals, the same satisfiability verdict as encoding the same constraint at
the last bound from scratch alone. -/
theorem c1_incremental_equivalence (body : List Int) (m : Nat) (b0 : Int)
    (bs : List Int) (hm : 0 < m) (hne : body ≠ [])
    (hnz : ∀ l ∈ body, l ≠ 0) (hlt : ∀ l ∈ body, l.natAbs < m)
    (hchain : List.Chain (fun x y => y < x) b0 bs) :
    ∃ r d' r', initIterAtMostK body b0 m pblibInit = .ok r ∧
      runTightenList bs m r.datas = .ok d' ∧
      initIterAtMostK body (bs.getLastD b0) m pblibInit = .ok r' ∧
      ∀ α : Nat → Bool, SatFor m d'.formula α ↔ SatFor m r'.datas.formula α := by
  obtain ⟨r, hr, hstr, hlits, hbound, _⟩ := init_stinv body b0 m hne
  have hchain2 : List.Chain (fun x y => y < x) r.datas.constraint.bound bs := by
    rw [hbound]
    exact hchain
  obtain ⟨d', hrun, hst', hlits', hbound'⟩ := run_preserve m bs r.datas hstr hchain2
  obtain ⟨r', hr', hstr', hlits'', hbound'', _⟩ :=
    init_stinv body (bs.getLastD b0) m hne
  have e1 : d'.constraint.lits = body := by rw [hlits', hlits]
  have e2 : d'.constraint.bound = bs.getLastD b0 := by rw [hbound', hbound]
  have hshape1 : ShapeInv m body (bs.getLastD b0) d'.formula := by
    have h := hst'.shape
    rw [e1, e2] at h
    exact h
  have hshape2 : ShapeInv m body (bs.getLastD b0) r'.datas.formula := by
    have h := hstr'.shape
    rw [hlits'', hbound''] at h
    exact h
  refine ⟨r, d', r', hr, hrun, hr', fun α => ?_⟩
  rw [shape_sat m body (bs.getLastD b0) d'.formula hm hnz hlt hshape1 α,
    shape_sat m body (bs.getLastD b0) r'.datas.formula hm hnz hlt hshape2 α]

/-- Witness for C1 at the constraint `x1 + x2 ≤ 1` (allocator base 3),
tightened once to bound 0, against a scratch encode at bound 0. -/
theorem c1_incremental_equivalence_witness :
    ∃ r d' r', initIterAtMostK [1, 2] 1 3 pblibInit = .ok r ∧
      runTightenList [0] 3 r.datas = .ok d' ∧
      initIterAtMostK [1, 2] (([0] : List Int).getLastD 1) 3 pblibInit = .ok r' ∧
      ∀ α : Nat → Bool, SatFor 3 d'.formula α ↔ SatFor 3 r'.datas.formula α :=
  c1_incremental_equivalence [1, 2] 3 1 [0] (by decide) (by decide) (by decide)
    (by decide) (List.Chain.cons (by decide) List.Chain.nil)

/-- C2: a tighten call whose new bound does not strictly decrease fails with
`NonMonotonicBound` and leaves the handle state unchanged, appending and
returning no clauses. -/
theorem c2_nonmonotonic_tighten_rejected (k : Int) (m : Nat) (d : MyDatas)
    (h : d.constraint.bound ≤ k) :
    tightenStep k m d = (d, [], some .NonMonotonicBound) := by
  unfold tightenStep
  rw [citer_err k m d _ (encodeNewLeq_err k m d.constraint d.formula h)]

/-- Witness for C2: tightening a fresh handle (stored bound 0) to the larger
bound 5 is rejected without any state change. -/
theorem c2_nonmonotonic_tighten_rejected_witness :
    tightenStep 5 3 pblibInit = (pblibInit, [], some .NonMonotonicBound) :=
  c2_nonmonotonic_tighten_rejected 5 3 pblibInit (by decide)

/-- C3: every tighten call (AtMost and AtLeast) returns exactly the clauses
it appended to the stored formula — the tail slice starting at the pre-call
length — so previously emitted clauses are neither re-appended nor
re-returned. -/
theorem c3_tighten_returns_exact_delta (k : Int) (m : Nat) (d : MyDatas) :
    (∀ r : CallResult, citerAtMostK k m d = .ok r →
      r.datas.formula = d.formula ++ r.out ∧
      r.out = r.datas.formula.drop d.formula.length) ∧
    (∀ r : CallResult, citerAtLeastK k m d = .ok r →
      r.datas.formula = d.formula ++ r.out ∧
      r.out = r.datas.formula.drop d.formula.length) := by
  constructor
  · intro r h
    by_cases h1 : d.constraint.bound ≤ k
    · rw [citer_err k m d _ (encodeNewLeq_err k m d.constraint d.formula h1)] at h
      exact absurd h (by simp)
    · by_cases h2 : k < 0
      · rw [citer_of_encode k m d _
          (encodeNewLeq_neg k m d.constraint d.formula h1 h2)] at h
        obtain rfl := (Except.ok.inj h).symm
        exact ⟨by rw [List.drop_left], rfl⟩
      · by_cases h3 : (d.constraint.lits.length : Int) ≤ k
        · rw [citer_of_encode k m d _
            (encodeNewLeq_trivial k m d.constraint d.formula h1 h2 h3)] at h
          obtain rfl := (Except.ok.inj h).symm
          refine ⟨?_, rfl⟩
          rw [List.drop_length]
          simp
        · by_cases h4 : d.constraint.built = true
          · rw [citer_of_encode k m d _
              (encodeNewLeq_unit k m d.constraint d.formula h1 h2 h3 h4)] at h
            obtain rfl := (Except.ok.inj h).symm
            exact ⟨by rw [List.drop_left], rfl⟩
          · rw [citer_of_encode k m d _
              (encodeNewLeq_build k m d.constraint d.formula h1 h2 h3
                (by simpa using h4))] at h
            obtain rfl := (Except.ok.inj h).symm
            refine ⟨?_, rfl⟩
            rw [List.append_assoc, List.drop_left, ← List.append_assoc]
  · intro r h
    by_cases h1 : k ≤ d.constraint.bound
    · rw [citerGeq_err k m d _ (encodeNewGeq_err k m d.constraint d.formula h1)] at h
      exact absurd h (by simp)
    · by_cases h2 : k ≤ 0
      · rw [citerGeq_of_encode k m d _
          (encodeNewGeq_trivial k m d.constraint d.formula h1 h2)] at h
        obtain rfl := (Except.ok.inj h).symm
        refine ⟨?_, rfl⟩
        rw [List.drop_length]
        simp
      · by_cases h3 : (d.constraint.lits.length : Int) < k
        · rw [citerGeq_of_encode k m d _
            (encodeNewGeq_neg k m d.constraint d.formula h1 h2 h3)] at h
          obtain rfl := (Except.ok.inj h).symm
          exact ⟨by rw [List.drop_left], rfl⟩
        · by_cases h4 : d.constraint.built = true
          · rw [citerGeq_of_encode k m d _
              (encodeNewGeq_unit k m d.constraint d.formula h1 h2 h3 h4)] at h
            obtain rfl := (Except.ok.inj h).symm
            exact ⟨by rw [List.drop_left], rfl⟩
          · rw [citerGeq_of_encode k m d _
              (encodeNewGeq_build k m d.constraint d.formula h1 h2 h3
                (by simpa using h4))] at h
            obtain rfl := (Except.ok.inj h).symm
            refine ⟨?_, rfl⟩
            rw [List.append_assoc, List.drop_left, ← List.append_assoc]

/-- Witness for C3: one concrete AtMost tighten and one concrete AtLeast
tighten, each returning exactly its appended tail slice. -/
theorem c3_tighten_returns_exact_delta_witness :
    (([[-1, 3], [-3]] : List (List Int)) = [] ++ [[-1, 3], [-3]] ∧
      ([[-1, 3], [-3]] : List (List Int)) =
        ([[-1, 3], [-3]] : List (List Int)).drop 0) ∧
    (([[1, 3], [-3]] : List (List Int)) = [] ++ [[1, 3], [-3]] ∧
      ([[1, 3], [-3]] : List (List Int)) =
        ([[1, 3], [-3]] : List (List Int)).drop 0) :=
  ⟨(c3_tighten_returns_exact_delta 0 3 ⟨[], ⟨[1], 5, false⟩⟩).1
      ⟨⟨[[-1, 3], [-3]], ⟨[1], 0, true⟩⟩, [[-1, 3], [-3]], [3]⟩ rfl,
    (c3_tighten_returns_exact_delta 1 3 ⟨[], ⟨[1], 0, false⟩⟩).2
      ⟨⟨[[1, 3], [-3]], ⟨[1], 1, true⟩⟩, [[1, 3], [-3]], [3]⟩ rfl⟩

/-- C4: constraint construction fails with `InvalidConstraint` exactly when
the literal set is empty or some weight is zero, retaining nothing; for a
non-empty set with all weights nonzero it succeeds with the constraint. -/
theorem c4_construct_invalid_constraint (wl : List (Int × Int)) (k : Int) :
    (construct wl k = .error .InvalidConstraint ↔
      wl = [] ∨ ∃ p ∈ wl, p.2 = 0) ∧
    ((wl ≠ [] ∧ ∀ p ∈ wl, p.2 ≠ 0) → construct wl k = .ok ⟨wl, k⟩) := by
  have hcond : (wl.isEmpty || wl.any fun p => p.2 == 0) = true ↔
      wl = [] ∨ ∃ p ∈ wl, p.2 = 0 := by
    simp [List.isEmpty_iff]
  constructor
  · constructor
    · intro h
      by_cases hc : (wl.isEmpty || wl.any fun p => p.2 == 0) = true
      · exact hcond.1 hc
      · unfold construct at h
        rw [if_neg hc] at h
        exact absurd h (by simp)
    · intro h
      unfold construct
      rw [if_pos (hcond.2 h)]
  · intro ⟨h1, h2⟩
    unfold construct
    rw [if_neg (fun hc => by
      rcases hcond.1 hc with he | ⟨p, hp, hz⟩
      · exact h1 he
      · exact h2 p hp hz)]

/-- Witness for C4: a zero weight is rejected, a weight-1 singleton is
accepted. -/
theorem c4_construct_invalid_constraint_witness :
    construct [((1 : Int), (0 : Int))] 5 = .error .InvalidConstraint ∧
    construct [((1 : Int), (1 : Int))] 5 = .ok ⟨[((1 : Int), (1 : Int))], 5⟩ :=
  ⟨(c4_construct_invalid_constraint [(1, 0)] 5).1.2 (Or.inr ⟨(1, 0), by decide, rfl⟩),
    (c4_construct_invalid_constraint [(1, 1)] 5).2 ⟨by decide, by decide⟩⟩

/-- C5 counterexample: two encode calls in one session (two `initIterAtMostK`
calls on the same handle, as the JNI interface permits) each construct their
own `AuxVarManager` from the caller-supplied base `m = 4` and therefore
allocate the same non-empty auxiliary variable set — the sets are not
disjoint, refuting the claim that all encode calls of a session draw from one
shared allocator with pairwise disjoint allocations. -/
theorem c5_shared_allocator_counterexample :
    (initIterAtMostK [1, 2, 3] 1 4 pblibInit).map CallResult.allocated =
      .ok [4, 5, 6, 7, 8, 9, 10, 11, 12] ∧
    ((initIterAtMostK [1, 2, 3] 1 4 pblibInit).bind
        (fun r => initIterAtMostK [1, 2, 3] 1 4 r.datas)).map CallResult.allocated =
      .ok [4, 5, 6, 7, 8, 9, 10, 11, 12] ∧
    (4 : Nat) ∈ [4, 5, 6, 7, 8, 9, 10, 11, 12] := by
  refine ⟨rfl, rfl, by decide⟩

/-- C5 (amended): each encode call draws from its own allocator started at
the caller-supplied cursor; within one call the allocated variables are
strictly increasing (hence pairwise distinct, never recycled), and the
allocation sets of two calls are disjoint whenever the second call's cursor
starts past the first call's allocation. -/
theorem c5_per_call_allocator_disjointness (m1 k1 m2 k2 : Nat)
    (h : m1 + k1 ≤ m2) :
    List.Pairwise (· < ·) (auxAlloc m1 k1) ∧
    ∀ v ∈ auxAlloc m1 k1, v ∉ auxAlloc m2 k2 := by
  refine ⟨auxAlloc_sorted m1 k1, ?_⟩
  intro v hv hv2
  rw [auxAlloc_mem] at hv hv2
  omega

/-- Witness for C5 (amended): the allocations of a call at cursor 4 and a
later call at cursor 13 are strictly increasing and disjoint. -/
theorem c5_per_call_allocator_disjointness_witness :
    List.Pairwise (· < ·) (auxAlloc 4 9) ∧
    ∀ v ∈ auxAlloc 4 9, v ∉ auxAlloc 13 9 :=
  c5_per_call_allocator_disjointness 4 9 13 9 (by decide)

/-- C6: encoding an AtMost constraint with bound at least the weighted sum
(all weights are 1, so the literal count) appends nothing, and encoding one
with a negative bound appends the designated always-false empty clause;
neither degenerate case errors, and neither allocates variables. -/
theorem c6_trivial_bounds_absorbed (body : List Int) (k : Int) (m : Nat)
    (d : MyDatas) (hne : body ≠ []) :
    ((body.length : Int) ≤ k →
      ∃ r, initIterAtMostK body k m d = .ok r ∧ r.datas.formula = d.formula ∧
        r.allocated = []) ∧
    (k < 0 →
      ∃ r, initIterAtMostK body k m d = .ok r ∧
        r.datas.formula = d.formula ++ [[]] ∧ r.allocated = []) := by
  constructor
  · intro hk
    have he := initIter_eq body k m d hne
    rw [encodeInc_trivial ⟨body, k, false⟩ d.formula m
      (show ¬ k < 0 by omega) hk] at he
    exact ⟨_, he, rfl, rfl⟩
  · intro hk
    have he := initIter_eq body k m d hne
    rw [encodeInc_neg ⟨body, k, false⟩ d.formula m hk] at he
    exact ⟨_, he, rfl, rfl⟩

/-- Witness for C6: bound 5 on a single weight-1 literal appends nothing;
bound -1 appends exactly the empty clause. -/
theorem c6_trivial_bounds_absorbed_witness :
    (∃ r, initIterAtMostK [1] 5 2 pblibInit = .ok r ∧
      r.datas.formula = pblibInit.formula ∧ r.allocated = []) ∧
    (∃ r, initIterAtMostK [1] (-1) 2 pblibInit = .ok r ∧
      r.datas.formula = pblibInit.formula ++ [[]] ∧ r.allocated = []) :=
  ⟨(c6_trivial_bounds_absorbed [1] 5 2 pblibInit (by decide)).1 (by decide),
    (c6_trivial_bounds_absorbed [1] (-1) 2 pblibInit (by decide)).2 (by decide)⟩

/-- C7 (code bug): the timed solve entry `gsat_1time` ignores its configured
time limit entirely — its commented-out alarm machinery leaves the result
independent of `t` and equal to the plain untimed solve verdict, a boolean
SAT/UNSAT with no UNKNOWN outcome, so the deadline can never produce
UNKNOWN. -/
theorem c7_gsat_time_ignores_limit :
    ∀ (S : SimpSolver) (t t' : Int),
      gsat_time S t = gsat_time S t' ∧ gsat_time S t = gsat S := by
  intro S t t'
  exact ⟨rfl, rfl⟩

/-- C8 counterexample: on the malformed input `p cnf 1 1 / 1 0 / 1 0` (one
clause declared, two present) the driver fails with `too many clauses` at
line 3 — but the literals of the first clause were already handed to the
engine through `lgladd` during parsing, so a partial formula was passed on,
refuting "hands no partial formula to the SAT Engine". -/
theorem c8_partial_formula_counterexample :
    runDriver "f" ("p cnf 1 1\n1 0\n1 0\n".toList) =
      .parseFailed "f:3: too many clauses" 1 [1, 0] ∧
    ([1, 0] : List Int) ≠ [] := by
  exact ⟨rfl, by decide⟩

/-- C8 (amended): on every malformed DIMACS input the driver reports the
error with the input name and line number, exits with status 1, and never
reaches the solve step; however, the literals parsed before the error was
detected have already been added to the engine (`adds`), so a partial formula
may have been handed over — it is abandoned unsolved. -/
theorem c8_parse_error_reported_no_solve (iname : String) (input : List Char)
    (e : ParseErr) (h : (parse false false input).err = some e) :
    runDriver iname input =
      .parseFailed
        (iname ++ ":" ++ toString (parse false false input).lineno ++ ": " ++ errMsg e)
        1 (parse false false input).adds := by
  unfold runDriver
  rw [h]

/-- Witness for C8 (amended): a missing header is reported as
`input.cnf:1: missing p ... header` with exit status 1 and no literals added. -/
theorem c8_parse_error_reported_no_solve_witness :
    runDriver "input.cnf" ("x\n".toList) =
      .parseFailed "input.cnf:1: missing p ... header" 1 [] :=
  c8_parse_error_reported_no_solve "input.cnf" ("x\n".toList) .missingHeader rfl

/-- C9: after a satisfiable solve, the model-value bridge of either IPASIR
backend returns, for every nonzero literal, the literal itself or its
negation — no third outcome. -/
theorem c9_val_two_outcomes (b : Backend) (μ : Nat → Bool) (literal : Int)
    (h : literal ≠ 0) :
    nativeSolverVal b μ literal = literal ∨
      nativeSolverVal b μ literal = -literal := by
  cases b
  case picosat =>
    unfold nativeSolverVal ipasirValPicosat derefModel
    by_cases hv : litVal μ literal = true
    · rw [hv]
      simp
    · simp only [Bool.not_eq_true] at hv
      rw [hv]
      simp
  case lingeling =>
    unfold nativeSolverVal ipasirValLingeling derefModel
    by_cases hv : litVal μ literal = true
    · rw [hv]
      simp
    · simp only [Bool.not_eq_true] at hv
      rw [hv]
      simp

/-- Witness for C9: literal 7 under both backends. -/
theorem c9_val_two_outcomes_witness :
    (nativeSolverVal .picosat (fun _ => true) 7 = 7 ∨
      nativeSolverVal .picosat (fun _ => true) 7 = -7) ∧
    (nativeSolverVal .lingeling (fun _ => false) 7 = 7 ∨
      nativeSolverVal .lingeling (fun _ => false) 7 = -7) :=
  ⟨c9_val_two_outcomes .picosat (fun _ => true) 7 (by decide),
    c9_val_two_outcomes .lingeling (fun _ => false) 7 (by decide)⟩

/-- C10 (code bug): with internal variable 0 assigned false, the external
literal -1 is true (the wrapper comment's convention demands the return
value 0), and the simp wrapper indeed returns 0 — but the parallel wrapper
returns `toInt(model[0]) = 1`, dropping the literal's polarity (its computed
`Lit l` is dead code). -/
theorem c10_gderef_polarity_bug :
    gderef (fun _ => .lfalse) (-1) = 0 ∧
    gderefParallel (fun _ => .lfalse) (-1) = 1 ∧
    litVal (fun _ => false) (-1) = true := by
  refine ⟨rfl, rfl, by decide⟩
